import Mathlib

/-!
Shallow embedding of the two Railz connector components in
`src/airbyte-integrations/connectors/source-railz-ai/source_railz_ai/components.py`:
the nested record extractor (`RailzNestedExtractor`) and the Cartesian
product stream slicer (`RailzCartesianProductStreamSlicer`).

Parsed JSON documents are modelled by the inductive type `Json`; Python
dictionaries by association lists with unique keys (`JDict`), with the
first matching entry as the binding and Python insertion order preserved.
Python `None` is `Json.null`.  Runtime exceptions are modelled by the
`Except PyError` monad: `indexError` for `list.pop` on an empty list,
`keyError` for indexing a mapping at an absent key, `typeError` for
indexing, iterating or comparing a value of the wrong shape, and
`attributeError` for calling `.get` on a non-mapping.  JSON numbers are
modelled as integers, which is enough for every claim (the cursor field
holds ISO-8601 date strings, compared lexicographically, exactly as
Python compares strings code point by code point).  Python dictionary
keys are modelled as strings, which covers every use in the source.
-/

namespace Railz

inductive Json where
  | null : Json
  | bool : Bool → Json
  | num : Int → Json
  | str : String → Json
  | arr : List Json → Json
  | obj : List (String × Json) → Json

abbrev JDict := List (String × Json)

inductive PyError where
  | indexError : PyError
  | keyError : String → PyError
  | typeError : PyError
  | attributeError : PyError
deriving DecidableEq

/-- Python dictionary read: the value bound to the first entry with the key. -/
def dictGet : JDict → String → Option Json
  | [], _ => none
  | (k, v) :: rest, key => if k = key then some v else dictGet rest key

/-- Python dictionary write `d[k] = v`: replace the value in place when the
key is present, append a new entry at the end otherwise (insertion order). -/
def dictSet : JDict → String → Json → JDict
  | [], key, v => [(key, v)]
  | (k, w) :: rest, key, v =>
      if k = key then (key, v) :: rest else (k, w) :: dictSet rest key v

/-- Python dictionary union `a | b`: start from `a` and write every entry of
`b` over it in order, so the right operand wins on key collision. -/
def dictUnion (a b : JDict) : JDict :=
  b.foldl (fun acc kv => dictSet acc kv.1 kv.2) a

/-- Python iteration `for x in v`: a list yields its elements, a dictionary
yields its keys, a string yields its characters as one-character strings,
and every other value raises TypeError. -/
def pyIter : Json → Except PyError (List Json)
  | Json.arr items => Except.ok items
  | Json.obj o => Except.ok (o.map (fun kv => Json.str kv.1))
  | Json.str s => Except.ok (s.data.map (fun c => Json.str (String.mk [c])))
  | _ => Except.error PyError.typeError

/-- Lines 120-122 of components.py: for each propagate field present on the
current object, write its value onto the record, overwriting any field of
the same name; assigning into a non-dictionary record raises TypeError. -/
def propagate (o : JDict) : List String → Json → Except PyError Json
  | [], r => Except.ok r
  | pf :: rest, r =>
      match dictGet o pf with
      | none => propagate o rest r
      | some v =>
          match r with
          | Json.obj ro => propagate o rest (Json.obj (dictSet ro pf v))
          | _ => Except.error PyError.typeError

/-- The body of the `for record in obj[field]` loop of `_extract_records`
(lines 119-126): propagate fields onto each element in sequence order, hand
the element to `step` (recurse, or yield it when the path is exhausted) and
concatenate the results in order. -/
def extractList (step : Json → Except PyError (List Json)) (o : JDict)
    (props : List String) : List Json → Except PyError (List Json)
  | [] => Except.ok []
  | r :: more => do
      let r2 ← propagate o props r
      let hs ← step r2
      let ts ← extractList step o props more
      Except.ok (hs ++ ts)

/-- `RailzNestedExtractor._extract_records` (lines 117-126) with the
records of the generator collected into a list, which is what
`extract_records` does with them.  `nested_fields.pop(0)` on an empty list
raises IndexError; `obj[field]` raises KeyError when the field is absent
on a dictionary and TypeError when the object is not a dictionary. -/
def extractRecordsAux (props : List String) : List String → Json → Except PyError (List Json)
  | [], _ => Except.error PyError.indexError
  | field :: rest, obj =>
      match obj with
      | Json.obj o =>
          match dictGet o field with
          | none => Except.error (PyError.keyError field)
          | some v =>
              match pyIter v with
              | Except.error e => Except.error e
              | Except.ok items =>
                  extractList
                    (fun r =>
                      match rest with
                      | [] => Except.ok [r]
                      | g :: gs => extractRecordsAux props (g :: gs) r)
                    o props items
      | _ => Except.error PyError.typeError

/-- `RailzNestedExtractor.extract_records` (lines 103-115): run the
recursive extraction on the parsed response and, when a truthy prefix key
is configured, wrap each record as a single-entry mapping under it. -/
def extract_records (response_json : Json) (nested_fields propagate_fields : List String)
    (wrapKey : Option String) : Except PyError (List Json) :=
  match extractRecordsAux propagate_fields nested_fields response_json with
  | Except.error e => Except.error e
  | Except.ok recs =>
      Except.ok
        (match wrapKey with
         | some pk => if pk = "" then recs else recs.map (fun r => Json.obj [(pk, r)])
         | none => recs)

/-- `RailzNestedExtractor.__post_init__` validation (lines 96-97): the
source evaluates `ValueError("nested_fields cannot be empty")` without a
`raise` statement, so the expression is discarded and construction
succeeds for every field path, the empty one included. -/
def post_init_check (nested_fields : List String) : Except String Unit :=
  if nested_fields.isEmpty then
    let _discarded : String := "nested_fields cannot be empty"
    Except.ok ()
  else Except.ok ()

/-- Error-propagating map, written out so its equations unfold plainly. -/
def mapME (g : Json → Except PyError (List Json)) : List Json → Except PyError (List (List Json))
  | [] => Except.ok []
  | x :: xs => do
      let y ← g x
      let ys ← mapME g xs
      Except.ok (y :: ys)

/-- Modelled from the spec sentence on output order: records are produced
by walking the document depth first, handling the elements of each
traversed sequence in source order and concatenating the per-element
record groups.  Fuel-indexed so the recursion is structural; one unit of
fuel is spent per path segment. -/
def docOrderGo : Nat → List String → List String → Json → Except PyError (List Json)
  | _, [], _, _ => Except.error PyError.indexError
  | 0, _ :: _, _, _ => Except.error PyError.indexError
  | fuel + 1, field :: rest, props, obj =>
      match obj with
      | Json.obj o =>
          match dictGet o field with
          | none => Except.error (PyError.keyError field)
          | some v => do
              let items ← pyIter v
              let groups ← mapME
                (fun r => do
                  let r2 ← propagate o props r
                  match rest with
                  | [] => Except.ok [r2]
                  | _ :: _ => docOrderGo fuel rest props r2)
                items
              Except.ok groups.flatten
      | _ => Except.error PyError.typeError

/-- Modelled from the spec: depth-first document traversal order, entered
with exactly as much fuel as the field path is long. -/
def docOrderExtract (fields props : List String) (obj : Json) : Except PyError (List Json) :=
  docOrderGo fields.length fields props obj

/-- The host framework's sync mode (airbyte_cdk SyncMode). -/
inductive SyncMode where
  | full_refresh : SyncMode
  | incremental : SyncMode

/-- Python `d[k]` on a dictionary: the value, or KeyError when absent. -/
def pyIndexD (d : JDict) (k : String) : Except PyError Json :=
  match dictGet d k with
  | some v => Except.ok v
  | none => Except.error (PyError.keyError k)

/-- Python `j[k]` on an arbitrary value: KeyError when the key is absent on
a dictionary, TypeError when the value is not a dictionary. -/
def jIndex (j : Json) (k : String) : Except PyError Json :=
  match j with
  | Json.obj d => pyIndexD d k
  | _ => Except.error PyError.typeError

/-- Dictionary keys are modelled as strings; a non-string name raises
TypeError in the model (no use in the source produces one). -/
def asStr : Json → Except PyError String
  | Json.str s => Except.ok s
  | _ => Except.error PyError.typeError

/-- Lines 160-161 and 167-168 of components.py: read
`slice["slice_key"]["businessName"]` and then
`slice["slice_key"]["serviceName"]` from a slice, in that order. -/
def sliceKeys (s : JDict) : Except PyError (String × String) := do
  let sk ← pyIndexD s "slice_key"
  let bn ← jIndex sk "businessName"
  let bns ← asStr bn
  let sn ← jIndex sk "serviceName"
  let sns ← asStr sn
  Except.ok (bns, sns)

/-- Python `j.get(k, d)`: the value or the default on a dictionary,
AttributeError on every other value. -/
def pyGetD (j : Json) (k : String) (d : Json) : Except PyError Json :=
  match j with
  | Json.obj o => Except.ok ((dictGet o k).getD d)
  | _ => Except.error PyError.attributeError

/-- Line 162 of components.py: the state handed to the datetime slicer,
the chain of two `get` calls on the stream state with the business name and
then the service name, each defaulting to the empty mapping. -/
def innerState (state : Json) (bn sn : String) : Except PyError Json := do
  let l1 ← pyGetD state bn (Json.obj [])
  pyGetD l1 sn (Json.obj [])

/-- Python `max` on two values of the same scalar type; Python compares
strings lexicographically by code point.  Strings are compared here
through their character lists, which is the same relation as the string
order of Lean (String.lt_iff_toList_lt) and keeps the comparison
evaluable.  Comparing values of different types raises TypeError. -/
def pyMax : Json → Json → Except PyError Json
  | Json.str a, Json.str b => Except.ok (if a.data < b.data then Json.str b else Json.str a)
  | Json.num a, Json.num b => Except.ok (if a < b then Json.num b else Json.num a)
  | Json.bool a, Json.bool b => Except.ok (if (!a) && b then Json.bool b else Json.bool a)
  | _, _ => Except.error PyError.typeError

/-- `RailzCartesianProductStreamSlicer.safe_max` (lines 175-181): either
argument may be Python None (`Json.null`), in which case the other wins. -/
def safe_max (arg1 arg2 : Json) : Except PyError Json :=
  match arg1, arg2 with
  | Json.null, a2 => Except.ok a2
  | a1, Json.null => Except.ok a1
  | a1, a2 => pyMax a1 a2

/-- The assignment target of line 169: the chain of two `setdefault` calls
on the cursor with empty-mapping defaults followed by the `postedDate`
write materialises the two nested levels when absent and stores the value.
The
non-dictionary fallback arms are never reached from `update_cursor`, which
has already raised AttributeError on such a cursor while evaluating the
right-hand side of the assignment. -/
def cursorStore (cursor : JDict) (bn sn : String) (v : Json) : JDict :=
  let d1 : JDict :=
    match dictGet cursor bn with
    | some (Json.obj d) => d
    | _ => []
  let d2 : JDict :=
    match dictGet d1 sn with
    | some (Json.obj d) => d
    | _ => []
  dictSet cursor bn (Json.obj (dictSet d1 sn (Json.obj (dictSet d2 "postedDate" v))))

/-- The cursor value stored for a pair of keys: follows
`cursor[bn][sn]["postedDate"]` through properly nested dictionaries and is
`none` when any level is absent or not a dictionary. -/
def storedVal (cursor : JDict) (bn sn : String) : Option Json :=
  match dictGet cursor bn with
  | some (Json.obj d1) =>
      match dictGet d1 sn with
      | some (Json.obj d2) => dictGet d2 "postedDate"
      | _ => none
  | _ => none

/-- `RailzCartesianProductStreamSlicer.update_cursor` (lines 165-173).
Python tests `if last_record:`, so both a missing record and an empty
record mapping take the else branch, which rebinds the whole cursor to the
given slice.  With a truthy record the right-hand side of the assignment
is evaluated first (key lookups, the `get` chain, `safe_max`), so an
exception there leaves the cursor untouched; the returned dictionary is
the new cursor. -/
def update_cursor (cursor : JDict) (stream_slice : JDict) (last_record : Option JDict) :
    Except PyError JDict :=
  match last_record with
  | some (kv :: rest) => do
      let p ← sliceKeys stream_slice
      let l1 ← pyGetD (Json.obj cursor) p.1 (Json.obj [])
      let l2 ← pyGetD l1 p.2 (Json.obj [])
      let arg1 ← pyGetD l2 "postedDate" Json.null
      let arg2 ← pyIndexD (kv :: rest) "postedDate"
      let v ← safe_max arg1 arg2
      Except.ok (cursorStore cursor p.1 p.2 v)
  | some [] => Except.ok stream_slice
  | none => Except.ok stream_slice

/-- The loop body of `stream_slices` (lines 159-163) over the list of
connection slices: per connection slice read its keys, build the sub-state
for the datetime slicer, and emit one merged slice
`connection_slice | datetime_slice` per datetime slice, preserving order. -/
def sliceGroups (ds : SyncMode → Json → List JDict) (sm : SyncMode) (state : Json) :
    List JDict → Except PyError (List JDict)
  | [] => Except.ok []
  | a :: rest => do
      let p ← sliceKeys a
      let sub ← innerState state p.1 p.2
      let tail ← sliceGroups ds sm state rest
      Except.ok ((ds sm sub).map (fun b => dictUnion a b) ++ tail)

/-- `RailzCartesianProductStreamSlicer.stream_slices` (lines 156-163), with
the two child slicers as function parameters (they are framework
collaborators) and the yielded slices collected into a list. -/
def stream_slices (cs ds : SyncMode → Json → List JDict) (sm : SyncMode) (state : JDict) :
    Except PyError (List JDict) :=
  sliceGroups ds sm (Json.obj state) (cs sm (Json.obj state))

/-- Total companion of `sliceKeys` used to state the Cartesian product
formula; it agrees with `sliceKeys` on every slice on which that succeeds. -/
def sliceKeysD (a : JDict) : String × String :=
  match sliceKeys a with
  | Except.ok p => p
  | Except.error _ => ("", "")

/-- Total companion of `innerState` for the same purpose. -/
def innerStateD (state : Json) (a : JDict) : Json :=
  match innerState state (sliceKeysD a).1 (sliceKeysD a).2 with
  | Except.ok s => s
  | Except.error _ => Json.obj []

theorem dictGet_dictSet_self (d : JDict) (k : String) (v : Json) :
    dictGet (dictSet d k v) k = some v := by
  induction d with
  | nil => simp [dictSet, dictGet]
  | cons kv rest ih =>
      obtain ⟨k1, v1⟩ := kv
      by_cases hk : k1 = k
      · subst hk
        simp [dictSet, dictGet]
      · simp [dictSet, dictGet, hk, ih]

theorem dictGet_dictSet_ne {d : JDict} {k k' : String} {v : Json} (h : k' ≠ k) :
    dictGet (dictSet d k v) k' = dictGet d k' := by
  have h1 : ¬ (k = k') := fun hh => h hh.symm
  induction d with
  | nil => simp [dictSet, dictGet, h1]
  | cons kv rest ih =>
      obtain ⟨k1, v1⟩ := kv
      by_cases hk : k1 = k
      · subst hk
        simp [dictSet, dictGet, h1]
      · by_cases hk' : k1 = k'
        · subst hk'
          simp [dictSet, dictGet, hk]
        · simp [dictSet, dictGet, hk, hk', ih]

theorem dictGet_eq_none_of_not_mem (d : JDict) (k : String) (h : k ∉ d.map Prod.fst) :
    dictGet d k = none := by
  induction d with
  | nil => simp [dictGet]
  | cons kv rest ih =>
      obtain ⟨k1, v1⟩ := kv
      simp only [List.map_cons, List.mem_cons] at h
      push_neg at h
      have h1 : ¬ (k1 = k) := fun hh => h.1 hh.symm
      simp [dictGet, h1, ih h.2]

theorem dictGet_dictUnion (a b : JDict) (k : String) (hb : (b.map Prod.fst).Nodup) :
    dictGet (dictUnion a b) k = (dictGet b k).orElse (fun _ => dictGet a k) := by
  induction b generalizing a with
  | nil => simp [dictUnion, dictGet, Option.orElse]
  | cons kv rest ih =>
      obtain ⟨k1, v1⟩ := kv
      simp only [List.map_cons, List.nodup_cons] at hb
      have hstep : dictUnion a ((k1, v1) :: rest) = dictUnion (dictSet a k1 v1) rest := by
        simp [dictUnion]
      rw [hstep, ih (dictSet a k1 v1) hb.2]
      by_cases hk : k1 = k
      · subst hk
        have hrest : dictGet rest k1 = none :=
          dictGet_eq_none_of_not_mem rest k1 hb.1
        simp [dictGet, hrest, dictGet_dictSet_self, Option.orElse]
      · simp [dictGet, hk, dictGet_dictSet_ne (fun hh => hk hh.symm)]

theorem propagate_sets (o : JDict) (props : List String) (pf : String) (v : Json)
    (hv : dictGet o pf = some v) :
    ∀ r r2, propagate o props r = Except.ok r2 →
      ((∀ ro, r = Json.obj ro → dictGet ro pf = some v →
          ∃ ro2, r2 = Json.obj ro2 ∧ dictGet ro2 pf = some v)
       ∧ (pf ∈ props → ∃ ro2, r2 = Json.obj ro2 ∧ dictGet ro2 pf = some v)) := by
  induction props with
  | nil =>
      intro r r2 h
      simp only [propagate] at h
      injection h with h2
      subst h2
      refine ⟨?_, ?_⟩
      · intro ro hro hget
        exact ⟨ro, hro, hget⟩
      · intro hmem
        exact absurd hmem (List.not_mem_nil pf)
  | cons q rest ih =>
      intro r r2 h
      simp only [propagate] at h
      cases hq : dictGet o q with
      | none =>
          rw [hq] at h
          have hqpf : q ≠ pf := by
            intro hh
            rw [hh, hv] at hq
            exact Option.noConfusion hq
          have hrec := ih r r2 h
          refine ⟨hrec.1, ?_⟩
          intro hmem
          rcases List.mem_cons.mp hmem with hl | hr
          · exact absurd hl.symm hqpf
          · exact hrec.2 hr
      | some w =>
          rw [hq] at h
          cases r with
          | obj ro =>
              by_cases hqpf : q = pf
              · subst hqpf
                rw [hv] at hq
                injection hq with hw
                subst hw
                have hrec := ih (Json.obj (dictSet ro q v)) r2 h
                have hset : dictGet (dictSet ro q v) q = some v := dictGet_dictSet_self ro q v
                have hres := hrec.1 (dictSet ro q v) rfl hset
                exact ⟨fun _ _ _ => hres, fun _ => hres⟩
              · have hrec := ih (Json.obj (dictSet ro q w)) r2 h
                refine ⟨?_, ?_⟩
                · intro ro2 hro2 hget
                  injection hro2 with hro3
                  subst hro3
                  have hpre : dictGet (dictSet ro q w) pf = some v := by
                    rw [dictGet_dictSet_ne (fun hh => hqpf hh.symm)]
                    exact hget
                  exact hrec.1 (dictSet ro q w) rfl hpre
                · intro hmem
                  rcases List.mem_cons.mp hmem with hl | hr
                  · exact absurd hl.symm hqpf
                  · exact hrec.2 hr
          | null => exact absurd h (by simp)
          | bool b => exact absurd h (by simp)
          | num n => exact absurd h (by simp)
          | str s => exact absurd h (by simp)
          | arr xs => exact absurd h (by simp)

theorem bindE_ok {α β : Type} (a : α) (f : α → Except PyError β) :
    Except.bind (Except.ok a) f = f a := rfl

theorem bindE_error {α β : Type} (e : PyError) (f : α → Except PyError β) :
    (Except.bind (Except.error e) f : Except PyError β) = Except.error e := rfl

theorem bindM_ok {α β : Type} (a : α) (f : α → Except PyError β) :
    (Except.ok a : Except PyError α) >>= f = f a := rfl

theorem bindM_error {α β : Type} (e : PyError) (f : α → Except PyError β) :
    (Except.error e : Except PyError α) >>= f = Except.error e := rfl

theorem extractList_eq_mapME (step : Json → Except PyError (List Json)) (o : JDict)
    (props : List String) (items : List Json) :
    extractList step o props items =
      (do
        let gs ← mapME (fun r => (propagate o props r).bind step) items
        Except.ok gs.flatten) := by
  induction items with
  | nil => rfl
  | cons r more ih =>
      simp only [extractList, mapME]
      cases hp : propagate o props r with
      | error e => simp only [hp, bindE_error, bindM_error]
      | ok r2 =>
          cases hs : step r2 with
          | error e => simp only [hp, hs, bindE_ok, bindM_ok, bindM_error]
          | ok hsv =>
              rw [ih]
              cases hm : mapME (fun r => (propagate o props r).bind step) more with
              | error e =>
                  simp only [hp, hs, hm, bindE_ok, bindM_ok, bindM_error]
              | ok ys =>
                  simp only [hp, hs, hm, bindE_ok, bindM_ok, List.flatten_cons]

theorem mapME_congr (g1 g2 : Json → Except PyError (List Json)) (items : List Json)
    (h : ∀ r ∈ items, g1 r = g2 r) : mapME g1 items = mapME g2 items := by
  induction items with
  | nil => simp [mapME]
  | cons r more ih =>
      simp only [mapME]
      rw [h r (List.mem_cons_self r more), ih (fun x hx => h x (List.mem_cons_of_mem r hx))]

theorem extract_eq_docOrderGo (fuel : Nat) :
    ∀ (fields props : List String) (obj : Json), fields.length ≤ fuel →
      extractRecordsAux props fields obj = docOrderGo fuel fields props obj := by
  induction fuel with
  | zero =>
      intro fields props obj h
      cases fields with
      | nil => simp [extractRecordsAux, docOrderGo]
      | cons f rest => exact absurd h (by simp)
  | succ n ih =>
      intro fields props obj h
      cases fields with
      | nil => simp [extractRecordsAux, docOrderGo]
      | cons f rest =>
          have hlen : rest.length ≤ n := by
            simp only [List.length_cons] at h
            omega
          clear h
          cases obj with
          | obj o =>
              simp only [extractRecordsAux, docOrderGo]
              cases hg : dictGet o f with
              | none => rfl
              | some v =>
                  cases hpi : pyIter v with
                  | error e => simp only [hpi, bindM_error]
                  | ok items =>
                      simp only [hpi, bindM_ok]
                      rw [extractList_eq_mapME]
                      cases rest with
                      | nil => rfl
                      | cons g gs =>
                          have hcong :
                              mapME
                                (fun r =>
                                  (propagate o props r).bind
                                    (fun r2 => extractRecordsAux props (g :: gs) r2))
                                items
                              = mapME
                                  (fun r => do
                                    let r2 ← propagate o props r
                                    docOrderGo n (g :: gs) props r2)
                                  items := by
                            apply mapME_congr
                            intro r _
                            cases hp : propagate o props r with
                            | error e => simp only [hp, bindE_error, bindM_error]
                            | ok r2 =>
                                simp only [hp, bindE_ok, bindM_ok]
                                exact ih (g :: gs) props r2 hlen
                          exact congrArg
                            (fun z => z >>= fun gs2 => Except.ok gs2.flatten) hcong
          | null => simp [extractRecordsAux, docOrderGo]
          | bool b => simp [extractRecordsAux, docOrderGo]
          | num m => simp [extractRecordsAux, docOrderGo]
          | str s => simp [extractRecordsAux, docOrderGo]
          | arr xs => simp [extractRecordsAux, docOrderGo]

theorem extractList_ok_mem (step : Json → Except PyError (List Json)) (o : JDict)
    (props : List String) :
    ∀ (items : List Json) (L : List Json),
      extractList step o props items = Except.ok L →
      ∀ r ∈ items, ∃ r2 g, propagate o props r = Except.ok r2 ∧ step r2 = Except.ok g := by
  intro items
  induction items with
  | nil =>
      intro L _ r hr
      exact absurd hr (List.not_mem_nil r)
  | cons r0 more ih =>
      intro L h r hr
      simp only [extractList] at h
      cases hp : propagate o props r0 with
      | error e =>
          simp only [hp, bindM_error] at h
          cases h
      | ok r2 =>
          simp only [hp, bindM_ok] at h
          cases hs : step r2 with
          | error e =>
              simp only [hs, bindM_error] at h
              cases h
          | ok hsv =>
              simp only [hs, bindM_ok] at h
              cases ht : extractList step o props more with
              | error e =>
                  simp only [ht, bindM_error] at h
                  cases h
              | ok ts =>
                  rcases List.mem_cons.mp hr with h1 | h2
                  · subst h1
                    exact ⟨r2, hsv, hp, hs⟩
                  · exact ih ts ht r h2

theorem extractList_all (step : Json → Except PyError (List Json)) (o : JDict)
    (props : List String) (pf : String) (v : Json)
    (hv : dictGet o pf = some v) (hmem : pf ∈ props)
    (hstep : ∀ r2 L2, (∃ ro2, r2 = Json.obj ro2 ∧ dictGet ro2 pf = some v) →
        step r2 = Except.ok L2 → ∀ x ∈ L2, ∃ ro, x = Json.obj ro ∧ dictGet ro pf = some v) :
    ∀ (items : List Json) (L : List Json),
      extractList step o props items = Except.ok L →
      ∀ x ∈ L, ∃ ro, x = Json.obj ro ∧ dictGet ro pf = some v := by
  intro items
  induction items with
  | nil =>
      intro L h x hx
      simp only [extractList] at h
      injection h with h2
      subst h2
      exact absurd hx (List.not_mem_nil x)
  | cons r0 more ih =>
      intro L h x hx
      simp only [extractList] at h
      cases hp : propagate o props r0 with
      | error e =>
          simp only [hp, bindM_error] at h
          cases h
      | ok r2 =>
          simp only [hp, bindM_ok] at h
          cases hs : step r2 with
          | error e =>
              simp only [hs, bindM_error] at h
              cases h
          | ok hsv =>
              simp only [hs, bindM_ok] at h
              cases ht : extractList step o props more with
              | error e =>
                  simp only [ht, bindM_error] at h
                  cases h
              | ok ts =>
                  simp only [ht, bindM_ok] at h
                  injection h with h2
                  subst h2
                  have hq : ∃ ro2, r2 = Json.obj ro2 ∧ dictGet ro2 pf = some v :=
                    (propagate_sets o props pf v hv r0 r2 hp).2 hmem
                  rcases List.mem_append.mp hx with hxl | hxr
                  · exact hstep r2 hsv hq hs x hxl
                  · exact ih ts ht x hxr

theorem extract_all_propagated :
    ∀ (fields props : List String) (o : JDict) (pf : String) (v : Json) (L : List Json),
      pf ∈ props → dictGet o pf = some v →
      extractRecordsAux props fields (Json.obj o) = Except.ok L →
      ∀ r ∈ L, ∃ ro, r = Json.obj ro ∧ dictGet ro pf = some v := by
  intro fields
  induction fields with
  | nil =>
      intro props o pf v L _ _ h
      simp only [extractRecordsAux] at h
      cases h
  | cons f rest ih =>
      intro props o pf v L hmem hv h
      simp only [extractRecordsAux] at h
      cases hg : dictGet o f with
      | none =>
          rw [hg] at h
          cases h
      | some w =>
          simp only [hg] at h
          cases hpi : pyIter w with
          | error e =>
              simp only [hpi] at h
              cases h
          | ok items =>
              simp only [hpi] at h
              refine extractList_all _ o props pf v hv hmem ?_ items L h
              intro r2 L2 hq hs x hx
              cases rest with
              | nil =>
                  injection hs with h2
                  subst h2
                  rcases List.mem_singleton.mp hx with rfl
                  exact hq
              | cons g gs =>
                  rcases hq with ⟨ro2, rfl, hro2⟩
                  exact ih props ro2 pf v L2 hmem hro2 hs x hx

theorem update_cursor_record_inv (cursor slice : JDict) (kv : String × Json) (rest : JDict)
    (cursor' : JDict)
    (h : update_cursor cursor slice (some (kv :: rest)) = Except.ok cursor') :
    ∃ bn sn d1 d2 pv v,
      sliceKeys slice = Except.ok (bn, sn) ∧
      (dictGet cursor bn).getD (Json.obj []) = Json.obj d1 ∧
      (dictGet d1 sn).getD (Json.obj []) = Json.obj d2 ∧
      dictGet (kv :: rest) "postedDate" = some pv ∧
      safe_max ((dictGet d2 "postedDate").getD Json.null) pv = Except.ok v ∧
      cursor' = cursorStore cursor bn sn v := by
  simp only [update_cursor] at h
  cases hk : sliceKeys slice with
  | error e =>
      simp only [hk, bindM_error] at h
      cases h
  | ok p =>
      obtain ⟨bn, sn⟩ := p
      simp only [hk, bindM_ok, pyGetD] at h
      cases hl1 : (dictGet cursor bn).getD (Json.obj []) with
      | obj d1 =>
          simp only [hl1, bindM_ok] at h
          cases hl2 : (dictGet d1 sn).getD (Json.obj []) with
          | obj d2 =>
              simp only [hl2, bindM_ok] at h
              cases hpv : dictGet (kv :: rest) "postedDate" with
              | none =>
                  simp only [pyIndexD, hpv, bindM_error] at h
                  cases h
              | some pv =>
                  simp only [pyIndexD, hpv, bindM_ok] at h
                  cases hsm : safe_max ((dictGet d2 "postedDate").getD Json.null) pv with
                  | error e =>
                      simp only [hsm, bindM_error] at h
                      cases h
                  | ok v =>
                      simp only [hsm, bindM_ok] at h
                      injection h with h2
                      exact ⟨bn, sn, d1, d2, pv, v, rfl, hl1, hl2, rfl, hsm, h2.symm⟩
          | null =>
              simp only [hl2, bindM_error] at h
              cases h
          | bool b =>
              simp only [hl2, bindM_error] at h
              cases h
          | num m =>
              simp only [hl2, bindM_error] at h
              cases h
          | str s =>
              simp only [hl2, bindM_error] at h
              cases h
          | arr xs =>
              simp only [hl2, bindM_error] at h
              cases h
      | null =>
          simp only [hl1, bindM_error] at h
          cases h
      | bool b =>
          simp only [hl1, bindM_error] at h
          cases h
      | num m =>
          simp only [hl1, bindM_error] at h
          cases h
      | str s =>
          simp only [hl1, bindM_error] at h
          cases h
      | arr xs =>
          simp only [hl1, bindM_error] at h
          cases h

theorem storedVal_of_chains (cursor : JDict) (bn sn : String) (d1 d2 : JDict)
    (h1 : (dictGet cursor bn).getD (Json.obj []) = Json.obj d1)
    (h2 : (dictGet d1 sn).getD (Json.obj []) = Json.obj d2) :
    storedVal cursor bn sn = dictGet d2 "postedDate" := by
  simp only [storedVal]
  cases hc : dictGet cursor bn with
  | none =>
      rw [hc] at h1
      simp only [Option.getD_none] at h1
      injection h1 with h1e
      subst h1e
      simp only [dictGet, Option.getD_none] at h2
      injection h2 with h2e
      subst h2e
      simp [dictGet]
  | some j =>
      rw [hc] at h1
      simp only [Option.getD_some] at h1
      subst h1
      simp only []
      cases hd : dictGet d1 sn with
      | none =>
          rw [hd] at h2
          simp only [Option.getD_none] at h2
          injection h2 with h2e
          subst h2e
          simp [hd, dictGet]
      | some j2 =>
          rw [hd] at h2
          simp only [Option.getD_some] at h2
          subst h2
          simp [hd]

theorem storedVal_cursorStore_self (cursor : JDict) (bn sn : String) (v : Json) :
    storedVal (cursorStore cursor bn sn v) bn sn = some v := by
  simp only [cursorStore, storedVal, dictGet_dictSet_self]

theorem storedVal_cursorStore_outer (cursor : JDict) (bn sn x y : String) (v : Json)
    (h : x ≠ bn) :
    storedVal (cursorStore cursor bn sn v) x y = storedVal cursor x y := by
  simp only [cursorStore, storedVal, dictGet_dictSet_ne h]

theorem storedVal_cursorStore_inner (cursor : JDict) (bn sn y : String) (v : Json)
    (h : y ≠ sn) :
    storedVal (cursorStore cursor bn sn v) bn y = storedVal cursor bn y := by
  simp only [cursorStore, storedVal, dictGet_dictSet_self, dictGet_dictSet_ne h]
  cases hc : dictGet cursor bn with
  | none => simp [dictGet]
  | some j => cases j <;> simp [dictGet]

theorem safe_max_str_le (a : String) (w v : Json)
    (h : safe_max (Json.str a) w = Except.ok v) :
    ∃ b, v = Json.str b ∧ a ≤ b := by
  cases w with
  | null =>
      injection h with h2
      exact ⟨a, h2.symm, le_refl a⟩
  | str c =>
      simp only [safe_max, pyMax] at h
      by_cases hlt : a.data < c.data
      · rw [if_pos hlt] at h
        injection h with h2
        refine ⟨c, h2.symm, le_of_lt ?_⟩
        exact String.lt_iff_toList_lt.mpr hlt
      · rw [if_neg hlt] at h
        injection h with h2
        exact ⟨a, h2.symm, le_refl a⟩
  | num n => simp [safe_max, pyMax] at h
  | bool b => simp [safe_max, pyMax] at h
  | arr xs => simp [safe_max, pyMax] at h
  | obj o => simp [safe_max, pyMax] at h

theorem sliceGroups_ok (ds : SyncMode → Json → List JDict) (sm : SyncMode) (st : Json) :
    ∀ (as : List JDict),
      (∀ a ∈ as, ∃ p, sliceKeys a = Except.ok p ∧
          ∃ s, innerState st p.1 p.2 = Except.ok s) →
      sliceGroups ds sm st as =
        Except.ok
          ((as.map (fun a => (ds sm (innerStateD st a)).map (fun b => dictUnion a b))).flatten) := by
  intro as
  induction as with
  | nil => intro _; rfl
  | cons a rest ih =>
      intro h
      obtain ⟨p, hp, s, hsub⟩ := h a (List.mem_cons_self a rest)
      simp only [sliceGroups, hp, bindM_ok, hsub]
      rw [ih (fun x hx => h x (List.mem_cons_of_mem a hx))]
      simp only [bindM_ok]
      have hD : innerStateD st a = s := by
        simp [innerStateD, sliceKeysD, hp, hsub]
      rw [List.map_cons, List.flatten_cons, hD]

theorem sliceGroups_error (ds : SyncMode → Json → List JDict) (sm : SyncMode) (st : Json) :
    ∀ (as : List JDict),
      (∃ a ∈ as, ∃ e, sliceKeys a = Except.error e) →
      ∃ e2, sliceGroups ds sm st as = Except.error e2 := by
  intro as
  induction as with
  | nil =>
      rintro ⟨a, ha, _⟩
      exact absurd ha (List.not_mem_nil a)
  | cons a rest ih =>
      rintro ⟨a0, ha0, e, he⟩
      cases hk : sliceKeys a with
      | error e1 => exact ⟨e1, by simp [sliceGroups, hk, bindM_error]⟩
      | ok p =>
          cases hsub : innerState st p.1 p.2 with
          | error e1 =>
              exact ⟨e1, by simp [sliceGroups, hk, hsub, bindM_ok, bindM_error]⟩
          | ok s =>
              have hmem : a0 ∈ rest := by
                rcases List.mem_cons.mp ha0 with h1 | h2
                · subst h1
                  rw [hk] at he
                  cases he
                · exact h2
              obtain ⟨e2, ht⟩ := ih ⟨a0, hmem, e, he⟩
              exact ⟨e2, by simp [sliceGroups, hk, hsub, ht, bindM_ok, bindM_error]⟩

/-- C1: the spec says an empty field path fails with a configuration error
before any record is produced.  The code means to do this but the
`ValueError` on line 97 is constructed without `raise`, so construction
succeeds and extraction instead dies later with IndexError from
`nested_fields.pop(0)`. -/
theorem claim_c1_empty_field_path :
    post_init_check [] = Except.ok ()
    ∧ extract_records (Json.obj [("data", Json.arr [Json.obj [("a", Json.str "1")]])]) [] [] none
        = Except.error PyError.indexError :=
  ⟨rfl, rfl⟩

/-- C2 counterexample: the claim says no update_cursor call ever replaces a
stored value with a smaller one, but a call without a record rebinds the
cursor wholesale; here it drops the stored maximum 2023-01-01 down to
2020-05-05. -/
theorem claim_c2_counterexample :
    update_cursor []
        [("slice_key", Json.obj [("businessName", Json.str "B"), ("serviceName", Json.str "S")])]
        (some [("postedDate", Json.str "2023-01-01")])
      = Except.ok [("B", Json.obj [("S", Json.obj [("postedDate", Json.str "2023-01-01")])])]
    ∧ update_cursor [("B", Json.obj [("S", Json.obj [("postedDate", Json.str "2023-01-01")])])]
        [("B", Json.obj [("S", Json.obj [("postedDate", Json.str "2020-05-05")])])] none
      = Except.ok [("B", Json.obj [("S", Json.obj [("postedDate", Json.str "2020-05-05")])])]
    ∧ storedVal [("B", Json.obj [("S", Json.obj [("postedDate", Json.str "2023-01-01")])])]
        "B" "S" = some (Json.str "2023-01-01")
    ∧ storedVal [("B", Json.obj [("S", Json.obj [("postedDate", Json.str "2020-05-05")])])]
        "B" "S" = some (Json.str "2020-05-05")
    ∧ ("2020-05-05" : String) < "2023-01-01" :=
  ⟨rfl, rfl, rfl, rfl, by rw [String.lt_iff_toList_lt]; decide⟩

/-- C2 (amended): over update_cursor calls that pass a truthy record and
succeed, every stored string cursor value is monotonically
non-decreasing; no such call replaces a stored value with a smaller one.
Calls without a record rebind the cursor wholesale and are exempt. -/
theorem claim_c2_cursor_monotonic (cursor slice rec cursor' : JDict) (x y : String) (a : String)
    (hrec : rec ≠ [])
    (h : update_cursor cursor slice (some rec) = Except.ok cursor')
    (hv : storedVal cursor x y = some (Json.str a)) :
    ∃ b, storedVal cursor' x y = some (Json.str b) ∧ a ≤ b := by
  cases rec with
  | nil => exact absurd rfl hrec
  | cons kv rest =>
      obtain ⟨bn, sn, d1, d2, pv, v, hk, hl1, hl2, hpv, hsm, hcur⟩ :=
        update_cursor_record_inv cursor slice kv rest cursor' h
      subst hcur
      by_cases hx : x = bn
      · subst hx
        by_cases hy : y = sn
        · subst hy
          have hbridge := storedVal_of_chains cursor x y d1 d2 hl1 hl2
          rw [hv] at hbridge
          rw [← hbridge] at hsm
          simp only [Option.getD_some] at hsm
          obtain ⟨b, hvb, hab⟩ := safe_max_str_le a pv v hsm
          subst hvb
          exact ⟨b, storedVal_cursorStore_self cursor x y (Json.str b), hab⟩
        · refine ⟨a, ?_, le_refl a⟩
          rw [storedVal_cursorStore_inner cursor x sn y v hy]
          exact hv
      · refine ⟨a, ?_, le_refl a⟩
        rw [storedVal_cursorStore_outer cursor bn sn x y v hx]
        exact hv

/-- C2 witness: a third record moves the stored value of the concrete
cursor from 2023-01-01 up to some value at least as large. -/
theorem claim_c2_cursor_monotonic_witness :
    ∃ b, storedVal [("B", Json.obj [("S", Json.obj [("postedDate", Json.str "2024-01-01")])])]
        "B" "S" = some (Json.str b) ∧ "2023-01-01" ≤ b :=
  claim_c2_cursor_monotonic
    [("B", Json.obj [("S", Json.obj [("postedDate", Json.str "2023-01-01")])])]
    [("slice_key", Json.obj [("businessName", Json.str "B"), ("serviceName", Json.str "S")])]
    [("postedDate", Json.str "2024-01-01")]
    [("B", Json.obj [("S", Json.obj [("postedDate", Json.str "2024-01-01")])])]
    "B" "S" "2023-01-01"
    (List.cons_ne_nil _ _) rfl rfl

/-- C3: stream_slices yields exactly the Cartesian product of the outer
slices with the inner slices computed per outer slice, in outer-then-inner
order, each element being the right-biased dictionary union of the outer
and inner slice (the inner slice wins on key collision, stated by the
second conjunct for dictionaries with distinct keys). -/
theorem claim_c3_cartesian_product (cs ds : SyncMode → Json → List JDict) (sm : SyncMode)
    (state : JDict)
    (h : ∀ a ∈ cs sm (Json.obj state), ∃ p, sliceKeys a = Except.ok p ∧
        ∃ s, innerState (Json.obj state) p.1 p.2 = Except.ok s) :
    stream_slices cs ds sm state =
      Except.ok
        (((cs sm (Json.obj state)).map
          (fun a => (ds sm (innerStateD (Json.obj state) a)).map (fun b => dictUnion a b))).flatten)
    ∧ ∀ (a b : JDict) (k : String), (b.map Prod.fst).Nodup →
        dictGet (dictUnion a b) k = (dictGet b k).orElse (fun _ => dictGet a k) :=
  ⟨sliceGroups_ok ds sm (Json.obj state) (cs sm (Json.obj state)) h,
   fun a b k hb => dictGet_dictUnion a b k hb⟩

/-- C3 witness: one connection slice paired with two datetime slices
produces the two merged slices in order. -/
theorem claim_c3_cartesian_product_witness :
    stream_slices
        (fun _ _ => [[("slice_key",
          Json.obj [("businessName", Json.str "B"), ("serviceName", Json.str "S")]),
          ("q", Json.str "c")]])
        (fun _ st => [[("start", st)], [("stop", Json.str "2")]])
        SyncMode.incremental
        [("B", Json.obj [("S", Json.obj [("postedDate", Json.str "2022-12-28")])])]
      = Except.ok
          [[("slice_key",
              Json.obj [("businessName", Json.str "B"), ("serviceName", Json.str "S")]),
            ("q", Json.str "c"),
            ("start", Json.obj [("postedDate", Json.str "2022-12-28")])],
           [("slice_key",
              Json.obj [("businessName", Json.str "B"), ("serviceName", Json.str "S")]),
            ("q", Json.str "c"),
            ("stop", Json.str "2")]] :=
  (claim_c3_cartesian_product
    (fun _ _ => [[("slice_key",
      Json.obj [("businessName", Json.str "B"), ("serviceName", Json.str "S")]),
      ("q", Json.str "c")]])
    (fun _ st => [[("start", st)], [("stop", Json.str "2")]])
    SyncMode.incremental
    [("B", Json.obj [("S", Json.obj [("postedDate", Json.str "2022-12-28")])])]
    (by
      intro a ha
      rw [List.mem_singleton] at ha
      subst ha
      exact ⟨("B", "S"), rfl, Json.obj [("postedDate", Json.str "2022-12-28")], rfl⟩)).1

/-- C4 counterexample: the claim covers every call with a record and says
a call carrying no record value is a no-op; but an empty record is falsy
in Python, so the call rebinds the cursor to the slice, destroying the
stored entry instead of leaving the cursor unchanged. -/
theorem claim_c4_counterexample :
    update_cursor [("B", Json.obj [("S", Json.obj [("postedDate", Json.str "2023-03-03")])])]
        [("slice_key", Json.obj [("businessName", Json.str "B"), ("serviceName", Json.str "S")])]
        (some [])
      = Except.ok
          [("slice_key", Json.obj [("businessName", Json.str "B"), ("serviceName", Json.str "S")])]
    ∧ storedVal
        [("slice_key", Json.obj [("businessName", Json.str "B"), ("serviceName", Json.str "S")])]
        "B" "S" = none
    ∧ storedVal [("B", Json.obj [("S", Json.obj [("postedDate", Json.str "2023-03-03")])])]
        "B" "S" = some (Json.str "2023-03-03") :=
  ⟨rfl, rfl, rfl⟩

/-- C4 (amended): for every successful update_cursor call with a non-empty
record that carries a postedDate entry (possibly null), the stored cursor
entry becomes the null-safe maximum of the existing value and the record
value: an absent or null existing value is replaced by the record value, a
null record value keeps the existing value, and two present string values
store the greater one. -/
theorem claim_c4_nullsafe_max (cursor slice rec cursor' : JDict) (bn sn : String) (pv : Json)
    (hrec : rec ≠ [])
    (hkeys : sliceKeys slice = Except.ok (bn, sn))
    (hpd : dictGet rec "postedDate" = some pv)
    (h : update_cursor cursor slice (some rec) = Except.ok cursor') :
    ((storedVal cursor bn sn = none ∨ storedVal cursor bn sn = some Json.null) →
        storedVal cursor' bn sn = some pv)
    ∧ (pv = Json.null → ∀ w, storedVal cursor bn sn = some w →
        storedVal cursor' bn sn = some w)
    ∧ (∀ a b, storedVal cursor bn sn = some (Json.str a) → pv = Json.str b →
        storedVal cursor' bn sn = some (Json.str (if a < b then b else a))) := by
  cases rec with
  | nil => exact absurd rfl hrec
  | cons kv rest =>
      obtain ⟨bn2, sn2, d1, d2, pv2, v, hk2, hl1, hl2, hpv2, hsm, hcur⟩ :=
        update_cursor_record_inv cursor slice kv rest cursor' h
      rw [hkeys] at hk2
      injection hk2 with hpair
      injection hpair with hbn hsn
      subst hbn
      subst hsn
      rw [hpd] at hpv2
      injection hpv2 with hpveq
      subst hpveq
      subst hcur
      have hbridge := storedVal_of_chains cursor bn sn d1 d2 hl1 hl2
      refine ⟨?_, ?_, ?_⟩
      · intro hcase
        have harg : (dictGet d2 "postedDate").getD Json.null = Json.null := by
          rw [hbridge] at hcase
          rcases hcase with hnone | hnull
          · rw [hnone]
            rfl
          · rw [hnull]
            rfl
        rw [harg] at hsm
        simp only [safe_max] at hsm
        injection hsm with hv2
        rw [← hv2]
        exact storedVal_cursorStore_self cursor bn sn pv
      · intro hnull w hw
        rw [hbridge] at hw
        rw [hw] at hsm
        simp only [Option.getD_some] at hsm
        subst hnull
        have hv2 : v = w := by
          cases w <;> simp [safe_max, pyMax] at hsm <;> exact hsm.symm
        rw [← hv2]
        exact storedVal_cursorStore_self cursor bn sn v
      · intro a b ha hb
        rw [hbridge] at ha
        rw [ha] at hsm
        simp only [Option.getD_some] at hsm
        subst hb
        simp only [safe_max, pyMax] at hsm
        injection hsm with hveq
        rw [← hveq]
        have hself := storedVal_cursorStore_self cursor bn sn
          (if a.data < b.data then Json.str b else Json.str a)
        rw [hself]
        by_cases hab : a < b
        · have hd : a.data < b.data := String.lt_iff_toList_lt.mp hab
          rw [if_pos hd, if_pos hab]
        · have hd : ¬ a.data < b.data := fun hh => hab (String.lt_iff_toList_lt.mpr hh)
          rw [if_neg hd, if_neg hab]

/-- C4 witness: both values present on a concrete cursor and record; the
greater date is stored. -/
theorem claim_c4_nullsafe_max_witness :
    storedVal [("B", Json.obj [("S", Json.obj [("postedDate", Json.str "2024-02-02")])])]
        "B" "S"
      = some (Json.str (if "2023-01-01" < "2024-02-02" then "2024-02-02" else "2023-01-01")) :=
  (claim_c4_nullsafe_max
    [("B", Json.obj [("S", Json.obj [("postedDate", Json.str "2023-01-01")])])]
    [("slice_key", Json.obj [("businessName", Json.str "B"), ("serviceName", Json.str "S")])]
    [("postedDate", Json.str "2024-02-02")]
    [("B", Json.obj [("S", Json.obj [("postedDate", Json.str "2024-02-02")])])]
    "B" "S" (Json.str "2024-02-02")
    (List.cons_ne_nil _ _) rfl rfl rfl).2.2 "2023-01-01" "2024-02-02" rfl rfl

/-- C5: every propagate field present on an ancestor object is written
onto each element of the traversed sequence, overwriting any same-named
field, so every terminal record carries the propagated value. -/
theorem claim_c5_propagate_fields (fields props : List String) (o : JDict) (pf : String)
    (v : Json) (L : List Json)
    (hmem : pf ∈ props) (hv : dictGet o pf = some v)
    (h : extractRecordsAux props fields (Json.obj o) = Except.ok L) :
    ∀ r ∈ L, ∃ ro, r = Json.obj ro ∧ dictGet ro pf = some v :=
  extract_all_propagated fields props o pf v L hmem hv h

/-- C5 witness: path a.b with propagate field x; the one leaf record
carries x with the ancestor value X, overwriting nothing else. -/
theorem claim_c5_propagate_fields_witness :
    ∃ ro, Json.obj [("y", Json.str "1"), ("x", Json.str "X")] = Json.obj ro ∧
      dictGet ro "x" = some (Json.str "X") :=
  claim_c5_propagate_fields ["a", "b"] ["x"]
    [("x", Json.str "X"),
     ("a", Json.arr [Json.obj [("b", Json.arr [Json.obj [("y", Json.str "1")]])]])]
    "x" (Json.str "X") [Json.obj [("y", Json.str "1"), ("x", Json.str "X")]]
    (by simp) rfl rfl
    (Json.obj [("y", Json.str "1"), ("x", Json.str "X")]) (by simp)

/-- C6: extraction equals the depth-first document traversal: per source
element in source order, depth first, concatenated; so the output order is
exactly document traversal order. -/
theorem claim_c6_output_order (fields props : List String) (obj : Json) :
    extract_records obj fields props none = docOrderExtract fields props obj := by
  have hid : extract_records obj fields props none = extractRecordsAux props fields obj := by
    simp only [extract_records]
    cases extractRecordsAux props fields obj <;> rfl
  rw [hid]
  exact extract_eq_docOrderGo fields.length fields props obj (le_refl _)

/-- C7: a path segment absent on the object being descended fails the
extraction with KeyError naming the segment (the MissingFieldError of the
spec), and a successful extraction processed every element of every
traversed sequence, so nothing was silently skipped. -/
theorem claim_c7_missing_field :
    (∀ (f : String) (rest props : List String) (o : JDict),
        dictGet o f = none →
        extractRecordsAux props (f :: rest) (Json.obj o) = Except.error (PyError.keyError f))
    ∧ (∀ (step : Json → Except PyError (List Json)) (o : JDict) (props : List String)
        (items L : List Json),
        extractList step o props items = Except.ok L →
        ∀ r ∈ items, ∃ r2 g, propagate o props r = Except.ok r2 ∧ step r2 = Except.ok g) := by
  constructor
  · intro f rest props o hg
    simp [extractRecordsAux, hg]
  · intro step o props items L h r hr
    exact extractList_ok_mem step o props items L h r hr

/-- C7 witness: descending field a on an object without it fails with
KeyError a. -/
theorem claim_c7_missing_field_witness :
    extractRecordsAux [] ["a"] (Json.obj [("b", Json.str "1")])
      = Except.error (PyError.keyError "a") :=
  claim_c7_missing_field.1 "a" [] [] [("b", Json.str "1")] rfl

/-- C8 counterexample: a slice without slice_key passed to update_cursor
with no record does not fail; the malformed slice is accepted and becomes
the whole cursor. -/
theorem claim_c8_counterexample :
    sliceKeys [("x", Json.str "1")] = Except.error (PyError.keyError "slice_key")
    ∧ update_cursor [("a", Json.str "b")] [("x", Json.str "1")] none
        = Except.ok [("x", Json.str "1")] :=
  ⟨rfl, rfl⟩

/-- C8 (amended): a produced outer slice lacking the slice_key sub-fields
fails stream_slices, and a slice lacking them fails update_cursor whenever
a truthy record is passed; a call without a record stores the slice as the
new cursor without examining it. -/
theorem claim_c8_malformed_slice (cs ds : SyncMode → Json → List JDict) (sm : SyncMode)
    (state : JDict) :
    ((∃ a ∈ cs sm (Json.obj state), ∃ e, sliceKeys a = Except.error e) →
        ∃ e2, stream_slices cs ds sm state = Except.error e2)
    ∧ (∀ (cursor slice rec : JDict) (e : PyError), rec ≠ [] →
        sliceKeys slice = Except.error e →
        update_cursor cursor slice (some rec) = Except.error e) := by
  constructor
  · intro hex
    exact sliceGroups_error ds sm (Json.obj state) (cs sm (Json.obj state)) hex
  · intro cursor slice rec e hrec hke
    cases rec with
    | nil => exact absurd rfl hrec
    | cons kv rest => simp [update_cursor, hke, bindM_error]

/-- C8 witness: a record-bearing update_cursor call on a slice without
slice_key fails with KeyError slice_key. -/
theorem claim_c8_malformed_slice_witness :
    update_cursor [] [("x", Json.str "1")] (some [("postedDate", Json.str "2")])
      = Except.error (PyError.keyError "slice_key") :=
  (claim_c8_malformed_slice (fun _ _ => []) (fun _ _ => []) SyncMode.full_refresh []).2
    [] [("x", Json.str "1")] [("postedDate", Json.str "2")] (PyError.keyError "slice_key")
    (List.cons_ne_nil _ _) rfl

/-- C9: the datetime slicer state is exactly the sub-state of the full
state under the outer and inner keys, and the empty mapping when either
level is absent. -/
theorem claim_c9_inner_state (state : JDict) (bn sn : String) :
    (dictGet state bn = none → innerState (Json.obj state) bn sn = Except.ok (Json.obj []))
    ∧ (∀ d1, dictGet state bn = some (Json.obj d1) →
        innerState (Json.obj state) bn sn = Except.ok ((dictGet d1 sn).getD (Json.obj []))) := by
  constructor
  · intro h
    simp [innerState, pyGetD, h, bindM_ok, dictGet]
  · intro d1 h
    simp [innerState, pyGetD, h, bindM_ok]

/-- C9 witness: with both levels present the inner slicer state is exactly
the stored sub-mapping. -/
theorem claim_c9_inner_state_witness :
    innerState (Json.obj [("B", Json.obj [("S", Json.str "v")])]) "B" "S"
      = Except.ok ((dictGet [("S", Json.str "v")] "S").getD (Json.obj [])) :=
  (claim_c9_inner_state [("B", Json.obj [("S", Json.str "v")])] "B" "S").2
    [("S", Json.str "v")] rfl

/-- C10: update_cursor branches on the truthiness of the record, so an
empty record mapping behaves exactly like no record at all: the cursor is
rebound wholesale to the given slice, whatever was accumulated before. -/
theorem claim_c10_record_truthiness (cursor slice : JDict) :
    update_cursor cursor slice (some []) = Except.ok slice
    ∧ update_cursor cursor slice none = Except.ok slice :=
  ⟨rfl, rfl⟩

end Railz
